import Mathlib

/-!
Shallow embedding of `src/parse_kontoauszug.py`.

Strings are modelled as `List Char` (Python `str` code points), Python
floats as exact rationals `ℚ`.  The script's regex

  `(Buy|Sell)\s+trade\s+([A-Z0-9]{12})\s+(.+?),\s*quantity:\s*([\d,.]+)\s+M([\d,.]+)`

(where `M` is the three-character currency-marker sequence U+00E2 U+201A
U+00AC appearing literally in the source) is embedded as a specialised
backtracking matcher.  For this particular pattern every quantifier except
the `\s+` directly before the lazy group `(.+?)` is forced to maximal
munch (each is followed by a token its own character class cannot match),
so the only genuine backtracking is the interplay of that `\s+` (longest
first) with the lazy name group (shortest first); the matcher implements
exactly that search order, and `re.search`'s leftmost rule is the scan
over suffixes.  The character classes `\s` and `\d` are modelled on their
ASCII subsets, which cover every string the claims are about.
-/

namespace AInvest

/-- Code points of a string literal, the model of a Python `str`. -/
def cs (s : String) : List Char := s.data

/-- Python whitespace (`\s`, `str.strip`), restricted to the ASCII range. -/
def pyIsSpace (c : Char) : Bool :=
  c = ' ' || c = '\t' || c = '\n' || c = '\r' || c = '\x0b' || c = '\x0c'

/-- The character class `[A-Z0-9]` of the security-identifier group. -/
def isUpperDigit (c : Char) : Bool :=
  (65 ≤ c.toNat && c.toNat ≤ 90) || c.isDigit

/-- The character class `[\d,.]` of the two numeric groups. -/
def isNumChar (c : Char) : Bool :=
  c.isDigit || c = ',' || c = '.'

/-- Python `str.strip()`: remove leading and trailing whitespace. -/
def pyStrip (s : List Char) : List Char :=
  ((s.dropWhile pyIsSpace).reverse.dropWhile pyIsSpace).reverse

/-- Match a literal and return the rest of the input, `re` literal tokens. -/
def dropLit : List Char → List Char → Option (List Char)
  | [], s => some s
  | _ :: _, [] => none
  | c :: cs2, d :: s => if d = c then dropLit cs2 s else none

/-- The currency marker: the bytes of the euro sign as they stand in the
source file, decoded as the three characters U+00E2 U+201A U+00AC. -/
def euroMarker : List Char := ['â', '‚', '¬']

/-- Groups captured by a successful match of the trade pattern. -/
structure RawMatch where
  action : List Char
  isin : List Char
  name : List Char
  qtyStr : List Char
  amtStr : List Char
deriving DecidableEq

/-- Match `,\s*quantity:\s*([\d,.]+)\s+M([\d,.]+)` (the part of the pattern
after the lazy name group), returning the two numeric groups.  Every
quantifier here is followed by a token outside its character class, so
maximal munch is exact. -/
def matchTail2 (s : List Char) : Option (List Char × List Char) :=
  match s with
  | ',' :: s1 =>
    let s2 := s1.dropWhile pyIsSpace
    match dropLit (cs "quantity:") s2 with
    | none => none
    | some s3 =>
      let s4 := s3.dropWhile pyIsSpace
      let q := s4.takeWhile isNumChar
      let s5 := s4.dropWhile isNumChar
      if q.isEmpty then none
      else
        let w := s5.takeWhile pyIsSpace
        let s6 := s5.dropWhile pyIsSpace
        if w.isEmpty then none
        else
          match dropLit euroMarker s6 with
          | none => none
          | some s7 =>
            let a := s7.takeWhile isNumChar
            if a.isEmpty then none else some (q, a)
  | _ => none

/-- The lazy group `(.+?)` followed by the tail: try the tail at the current
split first (shortest name wins), extend the name by one non-newline
character on failure.  `acc` holds the reversed name taken so far. -/
def nameLoop (acc : List Char) (s : List Char) :
    Option (List Char × List Char × List Char) :=
  match (if acc.isEmpty then none else matchTail2 s) with
  | some (q, a) => some (acc.reverse, q, a)
  | none =>
    match s with
    | [] => none
    | c :: rest => if c = '\n' then none else nameLoop (c :: acc) rest

/-- Backtracking of the greedy `\s+` before the lazy name group: consume
`k` whitespace characters, longest first, and run the lazy name search on
the remainder. -/
def wsNameSearch (s : List Char) : Nat → Option (List Char × List Char × List Char)
  | 0 => none
  | k + 1 =>
    match nameLoop [] (s.drop (k + 1)) with
    | some r => some r
    | none => wsNameSearch s k

/-- Match the whole trade pattern anchored at the start of `s`. -/
def matchFrom (s : List Char) : Option RawMatch :=
  let act? : Option (List Char × List Char) :=
    match dropLit (cs "Buy") s with
    | some r => some (cs "Buy", r)
    | none =>
      match dropLit (cs "Sell") s with
      | some r => some (cs "Sell", r)
      | none => none
  match act? with
  | none => none
  | some (act, s1) =>
    let w1 := s1.takeWhile pyIsSpace
    let s2 := s1.dropWhile pyIsSpace
    if w1.isEmpty then none
    else
      match dropLit (cs "trade") s2 with
      | none => none
      | some s3 =>
        let w2 := s3.takeWhile pyIsSpace
        let s4 := s3.dropWhile pyIsSpace
        if w2.isEmpty then none
        else
          let idc := s4.take 12
          if idc.length == 12 && idc.all isUpperDigit then
            let s5 := s4.drop 12
            match wsNameSearch s5 (s5.takeWhile pyIsSpace).length with
            | none => none
            | some (nm, q, a) => some ⟨act, idc, nm, q, a⟩
          else none

/-- Python `re.search`: the leftmost starting position wins. -/
def searchFrom : List Char → Option RawMatch
  | [] => none
  | s@(_ :: rest) =>
    match matchFrom s with
    | some m => some m
    | none => searchFrom rest

/-- `s.replace(',', '')` applied to a numeric group. -/
def stripCommas (s : List Char) : List Char := s.filter (fun c => c != ',')

/-- Value of a string of decimal digits. -/
def digitsToNat (s : List Char) : Nat :=
  s.foldl (fun a c => 10 * a + (c.toNat - 48)) 0

/-- Python `float(...)` on the strings reachable here (digits and dots):
defined iff the string holds at least one digit and at most one dot, and
raises (returns `none`) otherwise, exactly as `float` raises `ValueError`.
The decimal string `ip.fp` denotes `(ip * 10 ^ |fp| + fp) / 10 ^ |fp|`,
built with `mkRat` so that concrete runs reduce definitionally. -/
def pyFloat? (s : List Char) : Option ℚ :=
  if s.any Char.isDigit && decide ((s.filter (fun c => c == '.')).length ≤ 1)
      && s.all (fun c => c.isDigit || c == '.') then
    let ip := s.takeWhile (fun c => c != '.')
    let fp := (s.dropWhile (fun c => c != '.')).drop 1
    some (mkRat (digitsToNat ip * 10 ^ fp.length + digitsToNat fp) (10 ^ fp.length))
  else none

/-- Python `/` on rationals, written through `mkRat` so that it reduces
definitionally on concrete inputs; `ratDiv_eq_div` below proves it equal
to field division on `ℚ`. -/
def ratDiv (a b : ℚ) : ℚ :=
  if 0 ≤ b.num then mkRat (a.num * b.den) (a.den * b.num.natAbs)
  else mkRat (-(a.num * b.den)) (a.den * b.num.natAbs)

/-- One element of the script's `trades` list. -/
structure Trade where
  action : List Char
  isin : List Char
  name : List Char
  quantity : ℚ
  amount : ℚ
  price : ℚ
deriving DecidableEq

/-- The dict appended to `trades` on a match, including
`price_per_share = amount / quantity if quantity > 0 else 0`. -/
def mkTrade (m : RawMatch) (q a : ℚ) : Trade :=
  ⟨m.action.map Char.toLower, m.isin, pyStrip m.name, q, a,
    if 0 < q then ratDiv a q else 0⟩

/-- The lookahead window built at a line: the stripped line joined with the
stripped next up-to-3 lines, space-separated. -/
def combined (l : List Char) (rest : List (List Char)) : List Char :=
  pyStrip l ++ ((rest.take 3).map (fun x => ' ' :: pyStrip x)).flatten

/-- The extraction loop: scan every line position (advancing by exactly 1),
search the window, parse the numeric groups.  A `float` failure is the
`ValueError` that kills the script, modelled as `none`; a normal run
returns `some` of the trade list. -/
def extractAux : List (List Char) → Option (List Trade)
  | [] => some []
  | l :: rest =>
    match searchFrom (combined l rest) with
    | none => extractAux rest
    | some m =>
      match pyFloat? (stripCommas m.qtyStr) with
      | none => none
      | some q =>
        match pyFloat? (stripCommas m.amtStr) with
        | none => none
        | some a =>
          match extractAux rest with
          | none => none
          | some ts => some (mkTrade m q a :: ts)

/-- One value of the script's `positions` dict. -/
structure Position where
  isin : List Char
  name : List Char
  total_qty : ℚ
  total_invested : ℚ
  buy_qty : ℚ
  sell_qty : ℚ
deriving DecidableEq

/-- The dict entry created on the first trade for a key. -/
def initPos (t : Trade) : Position := ⟨t.isin, t.name, 0, 0, 0, 0⟩

/-- The per-trade update of one position: buys add quantity and amount,
sells subtract quantity and, when any buys were seen, reduce the invested
total by the running average cost, clamped at zero. -/
def updatePos (p : Position) (t : Trade) : Position :=
  if t.action = cs "buy" then
    { p with
        buy_qty := p.buy_qty + t.quantity
        total_qty := p.total_qty + t.quantity
        total_invested := p.total_invested + t.amount }
  else if t.action = cs "sell" then
    let p1 := { p with
        sell_qty := p.sell_qty + t.quantity
        total_qty := p.total_qty - t.quantity }
    if 0 < p1.buy_qty then
      let avg_buy := p1.total_invested / p1.buy_qty
      let ti := p1.total_invested - avg_buy * t.quantity
      { p1 with total_invested := if ti < 0 then 0 else ti }
    else p1
  else p

/-- One iteration of the aggregation loop over the insertion-ordered dict,
modelled as an association list. -/
def step (ps : List (List Char × Position)) (t : Trade) :
    List (List Char × Position) :=
  let ps1 := if (ps.lookup t.isin).isNone then ps ++ [(t.isin, initPos t)] else ps
  ps1.map (fun kp => if kp.1 = t.isin then (kp.1, updatePos kp.2 t) else kp)

/-- The whole aggregation loop. -/
def aggregate (ts : List Trade) : List (List Char × Position) :=
  ts.foldl step []

/-- The dict comprehension keeping positions with `total_qty > 0.001`. -/
def heldOf (ps : List (List Char × Position)) : List (List Char × Position) :=
  ps.filter (fun kp => decide ((1 : ℚ) / 1000 < kp.2.total_qty))

/-- Round half to even to an integer, the rule of Python 3 `round`. -/
def rhe (x : ℚ) : ℤ :=
  let f := ⌊x⌋
  let r := x - f
  if r < 1 / 2 then f
  else if 1 / 2 < r then f + 1
  else if f % 2 = 0 then f else f + 1

/-- Python `round(x, nd)` on the exact-rational model. -/
def pyRound (nd : Nat) (x : ℚ) : ℚ := (rhe (x * 10 ^ nd) : ℚ) / 10 ^ nd

/-- Ascending ordinal (code-point) comparison of Python strings. -/
def lexLe : List Char → List Char → Bool
  | [], _ => true
  | _ :: _, [] => false
  | a :: as2, b :: bs2 =>
    if a.toNat < b.toNat then true
    else if b.toNat < a.toNat then false
    else lexLe as2 bs2

/-- `sorted(held.keys(), key=lambda k: held[k]['name'])`, as the held
positions in ascending name order (`sorted` and `mergeSort` are stable). -/
def sortedHeld (ps : List (List Char × Position)) : List Position :=
  ((heldOf ps).map Prod.snd).mergeSort (fun p q => lexLe p.name q.name)

/-- `round(total_invested / buy_qty, 2) if buy_qty > 0 else 0`. -/
def avg_price (p : Position) : ℚ :=
  if 0 < p.buy_qty then pyRound 2 (p.total_invested / p.buy_qty) else 0

/-- One CSV row: name, identifier, rounded quantity, rounded average
price, constant currency. -/
structure Row where
  name : List Char
  isin : List Char
  qty : ℚ
  price : ℚ
  currency : List Char
deriving DecidableEq

/-- The row written for one held position. -/
def rowOf (p : Position) : Row :=
  ⟨p.name, p.isin, pyRound 6 p.total_qty, avg_price p, cs "EUR"⟩

/-- The full output: held positions sorted by name, each turned into a row. -/
def outputRows (ts : List Trade) : List Row :=
  (sortedHeld (aggregate ts)).map rowOf

/-- Decidable check that the window of one line position parses: either no
match, or both numeric groups convert. -/
def windowParses : List (List Char) → Bool
  | [] => true
  | l :: rest =>
    match searchFrom (combined l rest) with
    | none => true
    | some m =>
      (pyFloat? (stripCommas m.qtyStr)).isSome && (pyFloat? (stripCommas m.amtStr)).isSome

/-! Concrete inputs used by the claims. -/

/-- A statement line holding one complete trade entry. -/
def lineL : List Char := cs "Buy trade ABCDEFGH1234 TestName, quantity: 10 â‚¬1000"

/-- The record the extractor produces from `lineL`. -/
def tradeL : Trade := ⟨cs "buy", cs "ABCDEFGH1234", cs "TestName", 10, 1000, 100⟩

/-- A statement whose first line matches the pattern with an unparseable
quantity field `.`, followed by a well-formed trade further down. -/
def c2badLines : List (List Char) :=
  [cs "Buy trade BADPARSE0001 Broken, quantity: . â‚¬100", [], [], [],
    cs "Sell trade GOODTRADE002 Fine, quantity: 2 â‚¬50"]

/-- A statement with one well-formed trade line. -/
def c2goodLines : List (List Char) :=
  [cs "Sell trade GOODTRADE002 Fine, quantity: 2 â‚¬50"]

/-- A statement line whose trade has quantity `0`. -/
def c5lines : List (List Char) :=
  [cs "Buy trade ZEROQTYISIN0 NullPos, quantity: 0 â‚¬100"]

/-- The record extracted from `c5lines`: quantity 0, amount 100, price 0. -/
def c5trade : Trade := ⟨cs "buy", cs "ZEROQTYISIN0", cs "NullPos", 0, 100, 0⟩

/-- A zero-quantity sale line for the zero-quantity guard. -/
def c6lines : List (List Char) :=
  [cs "Sell trade ZEROQTYISIN2 NullSale, quantity: 0 â‚¬5"]

/-- The record extracted from `c6lines`. -/
def c6trade : Trade := ⟨cs "sell", cs "ZEROQTYISIN2", cs "NullSale", 0, 5, 0⟩

/-- Buy 10 units for 1000. -/
def c1buy : Trade := ⟨cs "buy", cs "C1SECURITY00", cs "Alpha", 10, 1000, 100⟩

/-- Sell 4 units. -/
def c1sell : Trade := ⟨cs "sell", cs "C1SECURITY00", cs "Alpha", 4, 400, 100⟩

/-- Final state of the average-cost scenario: cost basis 600, net 6. -/
def c1pos : Position := ⟨cs "C1SECURITY00", cs "Alpha", 6, 600, 10, 4⟩

/-- Buy 10 units for 100. -/
def c4buy : Trade := ⟨cs "buy", cs "C4SECURITY00", cs "Delta", 10, 100, 10⟩

/-- Oversell: 20 units against 10 ever bought. -/
def c4sell : Trade := ⟨cs "sell", cs "C4SECURITY00", cs "Delta", 20, 0, 0⟩

/-- State after the oversell: invested clamped at exactly 0, net −10. -/
def c4pos : Position := ⟨cs "C4SECURITY00", cs "Delta", -10, 0, 10, 20⟩

/-- A position of net quantity 0.0005, below the held threshold. -/
def c7tiny : Trade := ⟨cs "buy", cs "C7TINYPOS000", cs "Epsilon", 1 / 2000, 1, 2000⟩

/-- A position of net quantity 0.002, above the held threshold. -/
def c7small : Trade := ⟨cs "buy", cs "C7SMALLPOS00", cs "Zeta", 1 / 500, 1, 500⟩

/-- A sale with no prior buy, leaving a negative net quantity. -/
def c7oversell : Trade := ⟨cs "sell", cs "C7OVERSELL00", cs "Eta", 5, 600, 120⟩

/-- Buy 10 at 100, sell 5, then buy 10 at 200. -/
def c8seq1 : List Trade :=
  [⟨cs "buy", cs "C8SECURITY00", cs "Theta", 10, 1000, 100⟩,
    ⟨cs "sell", cs "C8SECURITY00", cs "Theta", 5, 600, 120⟩,
    ⟨cs "buy", cs "C8SECURITY00", cs "Theta", 10, 2000, 200⟩]

/-- The same three trades with the batches swapped: buy 10 at 200 first. -/
def c8seq2 : List Trade :=
  [⟨cs "buy", cs "C8SECURITY00", cs "Theta", 10, 2000, 200⟩,
    ⟨cs "buy", cs "C8SECURITY00", cs "Theta", 10, 1000, 100⟩,
    ⟨cs "sell", cs "C8SECURITY00", cs "Theta", 5, 600, 120⟩]

/-- A buy of 1234.56785 units. -/
def c10buy : Trade :=
  ⟨cs "buy", cs "C10ROUNDING0", cs "Iota", 123456785 / 100000, 1000, 0⟩

/-- The position after `c10buy`. -/
def c10pos : Position :=
  ⟨cs "C10ROUNDING0", cs "Iota", 123456785 / 100000, 1000, 123456785 / 100000, 0⟩

/-- A buy of 2 units for 100, for instantiating the rounding theorem. -/
def c10wbuy : Trade := ⟨cs "buy", cs "C10WITNESS00", cs "Kappa", 2, 100, 50⟩

/-- The position after `c10wbuy`. -/
def c10wpos : Position := ⟨cs "C10WITNESS00", cs "Kappa", 2, 100, 2, 0⟩

/-! Helper lemmas. -/

/-- The reducible division `ratDiv` agrees with field division on `ℚ`. -/
theorem ratDiv_eq_div (a b : ℚ) : ratDiv a b = a / b := by
  rcases eq_or_ne b 0 with rfl | hb
  · simp [ratDiv, Rat.mkRat_eq_divInt, Rat.divInt_eq_div]
  · have hbn : b.num ≠ 0 := Rat.num_ne_zero.2 hb
    have had : ((a.den : ℚ)) ≠ 0 := Nat.cast_ne_zero.2 a.den_nz
    have hbd : ((b.den : ℚ)) ≠ 0 := Nat.cast_ne_zero.2 b.den_nz
    have hbq : ((b.num : ℚ)) ≠ 0 := Int.cast_ne_zero.2 hbn
    have hnum : ((b.num.natAbs : ℚ)) = |(b.num : ℚ)| := by
      rw [Int.cast_natAbs, Int.cast_abs]
    have hA : (a.num : ℚ) = a * a.den := (div_eq_iff had).1 (Rat.num_div_den a)
    have hB : (b.num : ℚ) = b * b.den := (div_eq_iff hbd).1 (Rat.num_div_den b)
    rw [ratDiv]
    split_ifs with hs
    · have habs : |(b.num : ℚ)| = (b.num : ℚ) :=
        abs_of_nonneg (by exact_mod_cast hs)
      rw [Rat.mkRat_eq_divInt, Rat.divInt_eq_div]
      push_cast [hnum, habs]
      rw [hA, hB,
        div_eq_div_iff (mul_ne_zero had (mul_ne_zero hb hbd)) hb]
      ring
    · have habs : |(b.num : ℚ)| = -(b.num : ℚ) :=
        abs_of_neg (by exact_mod_cast lt_of_not_le hs)
      rw [Rat.mkRat_eq_divInt, Rat.divInt_eq_div]
      push_cast [hnum, habs]
      rw [hA, hB,
        div_eq_div_iff (mul_ne_zero had
          (neg_ne_zero.2 (mul_ne_zero hb hbd))) hb]
      ring

/-- Every value `float` can produce here is non-negative. -/
theorem pyFloat?_nonneg (s : List Char) (q : ℚ) (h : pyFloat? s = some q) : 0 ≤ q := by
  rw [pyFloat?] at h
  split at h
  · obtain rfl : _ = q := Option.some_inj.1 h
    rw [Rat.mkRat_eq_divInt, Rat.divInt_eq_div]
    positivity
  · exact absurd h (by simp)

/-- Every record of a successful extraction has non-negative quantity and
amount and the guarded unit price of the source. -/
theorem extract_mem_spec : ∀ (lines : List (List Char)) (ts : List Trade),
    extractAux lines = some ts → ∀ t ∈ ts,
      0 ≤ t.quantity ∧ 0 ≤ t.amount ∧
        t.price = (if 0 < t.quantity then ratDiv t.amount t.quantity else 0)
  | [], ts, h => by
    obtain rfl : [] = ts := Option.some_inj.1 h
    intro t ht
    exact absurd ht (by simp)
  | l :: rest, ts, h => by
    rw [extractAux] at h
    split at h
    · exact extract_mem_spec rest ts h
    · split at h
      · exact absurd h (by simp)
      · split at h
        · exact absurd h (by simp)
        · split at h
          · exact absurd h (by simp)
          · rename_i x1 m hm x2 q hq x3 a ha x4 ts2 hr
            obtain rfl : mkTrade m q a :: ts2 = ts := Option.some_inj.1 h
            intro t ht
            rcases List.mem_cons.1 ht with rfl | ht2
            · exact ⟨pyFloat?_nonneg _ _ hq, pyFloat?_nonneg _ _ ha, rfl⟩
            · exact extract_mem_spec rest ts2 hr t ht2

/-- One position update keeps the invested total non-negative. -/
theorem updatePos_invested (p : Position) (t : Trade)
    (hp : 0 ≤ p.total_invested) (ht : 0 ≤ t.amount) :
    0 ≤ (updatePos p t).total_invested := by
  rw [updatePos]
  dsimp only
  split_ifs with h1 h2 h3 h4
  · exact add_nonneg hp ht
  · exact le_refl 0
  · exact le_of_not_lt h4
  · exact hp
  · exact hp

/-- One loop iteration keeps every invested total non-negative. -/
theorem step_invested (ps : List (List Char × Position)) (t : Trade)
    (hps : ∀ kp ∈ ps, 0 ≤ kp.2.total_invested) (ht : 0 ≤ t.amount) :
    ∀ kp ∈ step ps t, 0 ≤ kp.2.total_invested := by
  intro kp hkp
  rw [step] at hkp
  simp only [List.mem_map] at hkp
  obtain ⟨kp0, hkp0, rfl⟩ := hkp
  have h0 : 0 ≤ kp0.2.total_invested := by
    split at hkp0
    · rcases List.mem_append.1 hkp0 with hin | hnew
      · exact hps _ hin
      · obtain rfl : kp0 = (t.isin, initPos t) := by simpa using hnew
        exact le_refl 0
    · exact hps _ hkp0
  split_ifs with hk
  · exact updatePos_invested _ _ h0 ht
  · exact h0

/-- The whole aggregation loop keeps every invested total non-negative. -/
theorem foldl_step_invested : ∀ (ts : List Trade) (ps : List (List Char × Position)),
    (∀ t ∈ ts, 0 ≤ t.amount) → (∀ kp ∈ ps, 0 ≤ kp.2.total_invested) →
    ∀ kp ∈ ts.foldl step ps, 0 ≤ kp.2.total_invested
  | [], _, _, hps => hps
  | t :: ts, ps, hts, hps =>
    foldl_step_invested ts (step ps t)
      (fun u hu => hts u (List.mem_cons_of_mem _ hu))
      (step_invested ps t hps (hts t (List.mem_cons_self _ _)))

/-- The ordinal comparison is total. -/
theorem lexLe_total : ∀ a b : List Char, (lexLe a b || lexLe b a) = true
  | [], b => by simp [lexLe]
  | a :: as2, [] => by simp [lexLe]
  | a :: as2, b :: bs2 => by
    simp only [lexLe]
    rcases Nat.lt_trichotomy a.toNat b.toNat with h | h | h
    · simp [h]
    · simp [h, Nat.lt_irrefl, lexLe_total as2 bs2]
    · simp [h, Nat.lt_asymm h]

/-- The ordinal comparison is transitive. -/
theorem lexLe_trans : ∀ a b c : List Char,
    lexLe a b = true → lexLe b c = true → lexLe a c = true
  | [], _, _, _, _ => by simp [lexLe]
  | a :: as2, [], c, h1, _ => by simp [lexLe] at h1
  | a :: as2, b :: bs2, [], _, h2 => by simp [lexLe] at h2
  | a :: as2, b :: bs2, c :: cs2, h1, h2 => by
    simp only [lexLe] at h1 h2 ⊢
    by_cases hab : a.toNat < b.toNat
    · by_cases hbc : b.toNat < c.toNat
      · simp [Nat.lt_trans hab hbc]
      · by_cases hcb : c.toNat < b.toNat
        · simp [hbc, hcb] at h2
        · have : b.toNat = c.toNat := by omega
          simp [this ▸ hab]
    · by_cases hba : b.toNat < a.toNat
      · simp [hab, hba] at h1
      · have hab2 : a.toNat = b.toNat := by omega
        by_cases hbc : b.toNat < c.toNat
        · simp [hab2 ▸ hbc]
        · by_cases hcb : c.toNat < b.toNat
          · simp [hbc, hcb] at h2
          · have hbc2 : b.toNat = c.toNat := by omega
            have hac : ¬ a.toNat < c.toNat := by omega
            have hca : ¬ c.toNat < a.toNat := by omega
            simp only [hac, hca, if_false]
            simp only [hab, hba, if_false] at h1
            simp only [hbc, hcb, if_false] at h2
            exact lexLe_trans as2 bs2 cs2 h1 h2

/-- A window of blank lines holds no action keyword, hence no match. -/
theorem searchFrom_spaces3 : searchFrom [' ', ' ', ' '] = none := by decide

/-- Scanning any number `k + 3` of blank lines followed by the trade line
yields exactly 4 copies of the record: one per window touching the line. -/
theorem extractAux_replicate_lineL :
    ∀ k, extractAux (List.replicate (k + 3) [] ++ [lineL]) =
      some (List.replicate 4 tradeL)
  | 0 => by decide
  | k + 1 => by
    have hrw : List.replicate (k + 1 + 3) ([] : List Char) ++ [lineL]
        = [] :: (List.replicate (k + 3) [] ++ [lineL]) := by
      rw [show k + 1 + 3 = (k + 3) + 1 by omega, List.replicate_succ, List.cons_append]
    have htake : (List.replicate (k + 3) ([] : List Char) ++ [lineL]).take 3
        = [[], [], []] := by
      rw [List.take_append_of_le_length (by simp), List.take_replicate]
      rw [show min 3 (k + 3) = 3 by omega]
      rfl
    have hcomb : combined [] (List.replicate (k + 3) [] ++ [lineL]) = [' ', ' ', ' '] := by
      rw [combined, htake]
      rfl
    rw [hrw, extractAux, hcomb, searchFrom_spaces3]
    exact extractAux_replicate_lineL k

/-- The oversell scenario evaluated: invested clamped at exactly zero. -/
theorem c4_aggr : aggregate [c4buy, c4sell] = [(cs "C4SECURITY00", c4pos)] := by
  have h1 : ¬ (cs "sell" = cs "buy") := by decide
  norm_num [aggregate, step, updatePos, initPos, List.lookup, c4buy, c4sell, c4pos, h1]

/-- The single-buy output row evaluated, for instantiating C10. -/
theorem c10w_rows :
    outputRows [c10wbuy] = [⟨cs "Kappa", cs "C10WITNESS00", 2, 50, cs "EUR"⟩] := by
  have h2 : heldOf (aggregate [c10wbuy]) = [(cs "C10WITNESS00", c10wpos)] := by
    norm_num [aggregate, step, updatePos, initPos, List.lookup, heldOf, List.filter,
      c10wbuy, c10wpos]
  simp only [outputRows, sortedHeld, h2, List.map_cons, List.map_nil]
  simp only [List.mergeSort]
  norm_num [rowOf, avg_price, pyRound, rhe, c10wpos]

/-! Claims. -/

/-- C1: on [Buy quantity 10 amount 1000, Sell quantity 4] the final state
has cost basis 600 and net quantity 6, and the reported average price is
600 divided by the cumulative buy quantity 10, i.e. 60. -/
theorem c1_average_cost_scenario :
    aggregate [c1buy, c1sell] = [(cs "C1SECURITY00", c1pos)]
    ∧ c1pos.total_invested = 600 ∧ c1pos.total_qty = 6 ∧ c1pos.buy_qty = 10
    ∧ avg_price c1pos = 60 ∧ (600 : ℚ) / 10 = 60 := by
  refine ⟨?_, rfl, rfl, rfl, ?_, by norm_num⟩
  · have h1 : ¬ (cs "sell" = cs "buy") := by decide
    norm_num [aggregate, step, updatePos, initPos, List.lookup, c1buy, c1sell, c1pos, h1]
  · norm_num [avg_price, pyRound, rhe, c1pos]

/-- C2 counterexample: on `c2badLines` the first window matches the trade
pattern with quantity field `.`; the `float` conversion fails and the whole
extraction aborts (`none`), rather than skipping the candidate — even
though the same well-formed trade alone extracts fine. -/
theorem c2_abort_counterexample :
    extractAux c2badLines = none
    ∧ extractAux c2goodLines
      = some [⟨cs "sell", cs "GOODTRADE002", cs "Fine", 2, 50, 25⟩] :=
  ⟨by decide, by decide⟩

/-- C2 (amended): extraction finishes normally iff every scanned window
either does not match the trade pattern or has parseable numeric fields; a
matched window with an unparseable field aborts the run instead of being
silently skipped. -/
theorem c2_error_semantics : ∀ lines : List (List Char),
    (extractAux lines).isSome = true ↔ ∀ s ∈ lines.tails, windowParses s = true := by
  intro lines
  induction lines with
  | nil => simp [extractAux, windowParses]
  | cons l rest ih =>
    rw [List.tails_cons]
    cases hs : searchFrom (combined l rest) with
    | none =>
      have he : extractAux (l :: rest) = extractAux rest := by
        rw [extractAux, hs]
      have hw : windowParses (l :: rest) = true := by
        rw [windowParses, hs]
      rw [he]
      constructor
      · intro h s hsm
        rcases List.mem_cons.1 hsm with rfl | h2
        · exact hw
        · exact ih.1 h s h2
      · intro h
        exact ih.2 (fun s h2 => h s (List.mem_cons_of_mem _ h2))
    | some m =>
      cases hq : pyFloat? (stripCommas m.qtyStr) with
      | none =>
        have he : extractAux (l :: rest) = none := by
          simp only [extractAux, hs, hq]
        have hw : windowParses (l :: rest) = false := by
          simp only [windowParses, hs, hq, Option.isSome_none, Bool.false_and]
        constructor
        · intro h
          rw [he] at h
          exact absurd h (by simp)
        · intro h
          have := h _ (List.mem_cons_self _ _)
          rw [hw] at this
          cases this
      | some q =>
        cases ha : pyFloat? (stripCommas m.amtStr) with
        | none =>
          have he : extractAux (l :: rest) = none := by
            simp only [extractAux, hs, hq, ha]
          have hw : windowParses (l :: rest) = false := by
            simp only [windowParses, hs, hq, ha, Option.isSome_none, Bool.and_false]
          constructor
          · intro h
            rw [he] at h
            exact absurd h (by simp)
          · intro h
            have := h _ (List.mem_cons_self _ _)
            rw [hw] at this
            cases this
        | some a =>
          have hw : windowParses (l :: rest) = true := by
            simp only [windowParses, hs, hq, ha, Option.isSome_some, Bool.and_self]
          have hiso : (extractAux (l :: rest)).isSome = (extractAux rest).isSome := by
            simp only [extractAux, hs, hq, ha]
            cases extractAux rest <;> rfl
          rw [hiso]
          constructor
          · intro h s hsm
            rcases List.mem_cons.1 hsm with rfl | h2
            · exact hw
            · exact ih.1 h s h2
          · intro h
            exact ih.2 (fun s h2 => h s (List.mem_cons_of_mem _ h2))

/-- C2 witness: a well-formed statement extracts without error. -/
theorem c2_error_semantics_witness : (extractAux c2goodLines).isSome = true :=
  (c2_error_semantics c2goodLines).2 (by decide)

/-- C3: the trade line at index k, all other lines blank, is matched once
per window containing it: min(k+1, 4) identical records — 4 copies for
every k ≥ 3 — although the text holds the pattern exactly once. -/
theorem c3_overlap_duplication (k : Nat) (h : 3 ≤ k) :
    extractAux (List.replicate k [] ++ [lineL]) = some (List.replicate 4 tradeL)
    ∧ extractAux [lineL] = some [tradeL]
    ∧ extractAux [[], lineL] = some (List.replicate 2 tradeL)
    ∧ extractAux [[], [], lineL] = some (List.replicate 3 tradeL) := by
  obtain ⟨k2, rfl⟩ : ∃ k2, k = k2 + 3 := ⟨k - 3, by omega⟩
  exact ⟨extractAux_replicate_lineL k2, by decide, by decide, by decide⟩

/-- C3 witness: the duplication at k = 3. -/
theorem c3_overlap_duplication_witness :
    extractAux (List.replicate 3 [] ++ [lineL]) = some (List.replicate 4 tradeL)
    ∧ extractAux [lineL] = some [tradeL]
    ∧ extractAux [[], lineL] = some (List.replicate 2 tradeL)
    ∧ extractAux [[], [], lineL] = some (List.replicate 3 tradeL) :=
  c3_overlap_duplication 3 (by decide)

/-- C4: for every trade list whose amounts are non-negative (the invariant
of extracted records), every cost basis is non-negative after aggregation;
the oversell scenario is clamped at exactly zero. -/
theorem c4_cost_basis_nonneg :
    (∀ ts : List Trade, (∀ t ∈ ts, 0 ≤ t.amount) →
      ∀ kp ∈ aggregate ts, 0 ≤ kp.2.total_invested)
    ∧ aggregate [c4buy, c4sell] = [(cs "C4SECURITY00", c4pos)] :=
  ⟨fun ts hts kp hkp => foldl_step_invested ts [] hts (by simp) kp hkp, c4_aggr⟩

/-- C4 witness: the clamped oversell position, non-negative. -/
theorem c4_cost_basis_nonneg_witness : 0 ≤ c4pos.total_invested :=
  c4_cost_basis_nonneg.1 [c4buy, c4sell] (by decide)
    (cs "C4SECURITY00", c4pos) (by rw [c4_aggr]; exact List.mem_cons_self _ _)

/-- C5 counterexample: a matched trade with quantity 0 is extracted and
recorded, so the claimed invariant quantity > 0 fails. -/
theorem c5_zero_quantity_counterexample :
    extractAux c5lines = some [c5trade] ∧ ¬ 0 < c5trade.quantity :=
  ⟨by decide, by decide⟩

/-- C5 (amended): every record of a successful extraction has quantity ≥ 0
(zero is possible) and amount ≥ 0; an unparseable candidate aborts the run
(see C2), so it is never represented in any output. -/
theorem c5_fields_nonneg (lines : List (List Char)) (ts : List Trade)
    (h : extractAux lines = some ts) : ∀ t ∈ ts, 0 ≤ t.quantity ∧ 0 ≤ t.amount :=
  fun t ht =>
    ⟨(extract_mem_spec lines ts h t ht).1, (extract_mem_spec lines ts h t ht).2.1⟩

/-- C5 witness: the zero-quantity record satisfies the bounds. -/
theorem c5_fields_nonneg_witness : 0 ≤ c5trade.quantity ∧ 0 ≤ c5trade.amount :=
  c5_fields_nonneg c5lines [c5trade] (by decide) c5trade (by decide)

/-- C6: every extracted record carries the guarded unit price — the
division is taken only when the quantity is positive, and a quantity-0
trade is still recorded with price 0. -/
theorem c6_zero_quantity_guard (lines : List (List Char)) (ts : List Trade)
    (h : extractAux lines = some ts) (t : Trade) (ht : t ∈ ts) :
    t.price = if 0 < t.quantity then t.amount / t.quantity else 0 := by
  have h2 := (extract_mem_spec lines ts h t ht).2.2
  rwa [ratDiv_eq_div] at h2

/-- C6 witness: the zero-quantity sale is recorded with price 0. -/
theorem c6_zero_quantity_guard_witness :
    extractAux c6lines = some [c6trade]
    ∧ c6trade.price
      = if 0 < c6trade.quantity then c6trade.amount / c6trade.quantity else 0 :=
  ⟨by decide, c6_zero_quantity_guard c6lines [c6trade] (by decide) c6trade (by decide)⟩

/-- C7: a security is in the held output iff its net quantity exceeds
0.001; net 0.0005 is excluded, net 0.002 is included, and a negative net
(oversell) is excluded. -/
theorem c7_held_threshold :
    (∀ (ts : List Trade) (kp : List Char × Position),
      kp ∈ heldOf (aggregate ts) ↔ kp ∈ aggregate ts ∧ (1 : ℚ) / 1000 < kp.2.total_qty)
    ∧ heldOf (aggregate [c7tiny]) = []
    ∧ (heldOf (aggregate [c7small])).map (fun kp => kp.2.total_qty) = [1 / 500]
    ∧ heldOf (aggregate [c7oversell]) = [] := by
  refine ⟨?_, ?_, ?_, ?_⟩
  · intro ts kp
    simp [heldOf, List.mem_filter]
  · norm_num [aggregate, step, updatePos, initPos, List.lookup, heldOf, List.filter, c7tiny]
  · norm_num [aggregate, step, updatePos, initPos, List.lookup, heldOf, List.filter, c7small]
  · have h1 : ¬ (cs "sell" = cs "buy") := by decide
    norm_num [aggregate, step, updatePos, initPos, List.lookup, heldOf, List.filter,
      c7oversell, h1]

/-- C8: the two sequences are permutations of each other yet aggregate to
different average prices (125 versus 112.5), so order matters. -/
theorem c8_order_dependence :
    c8seq1.Perm c8seq2
    ∧ (aggregate c8seq1).map (fun kp => avg_price kp.2) = [125]
    ∧ (aggregate c8seq2).map (fun kp => avg_price kp.2) = [225 / 2]
    ∧ (125 : ℚ) ≠ 225 / 2 := by
  have h1 : ¬ (cs "sell" = cs "buy") := by decide
  refine ⟨by decide, ?_, ?_, by norm_num⟩
  · have h2 : aggregate c8seq1
        = [(cs "C8SECURITY00", ⟨cs "C8SECURITY00", cs "Theta", 15, 2500, 20, 5⟩)] := by
      norm_num [aggregate, step, updatePos, initPos, List.lookup, c8seq1, h1]
    rw [h2, List.map_cons, List.map_nil]
    norm_num [avg_price, pyRound, rhe]
  · have h2 : aggregate c8seq2
        = [(cs "C8SECURITY00", ⟨cs "C8SECURITY00", cs "Theta", 15, 2250, 20, 5⟩)] := by
      norm_num [aggregate, step, updatePos, initPos, List.lookup, c8seq2, h1]
    rw [h2, List.map_cons, List.map_nil]
    norm_num [avg_price, pyRound, rhe]

/-- C9: the emitted rows are the held positions in ascending ordinal order
of display name (and are exactly a permutation of the held positions). -/
theorem c9_output_sorted (ts : List Trade) :
    (outputRows ts).Pairwise (fun r1 r2 => lexLe r1.name r2.name = true)
    ∧ (outputRows ts).Perm (((heldOf (aggregate ts)).map Prod.snd).map rowOf) := by
  constructor
  · have hs := List.sorted_mergeSort
      (fun a b c hab hbc => lexLe_trans a.name b.name c.name hab hbc)
      (fun a b => lexLe_total a.name b.name)
      ((heldOf (aggregate ts)).map Prod.snd)
    simp only [outputRows, sortedHeld]
    exact List.pairwise_map.2 hs
  · simp only [outputRows, sortedHeld]
    exact (List.mergeSort_perm _ _).map rowOf

/-- C10 counterexample: the reported quantity after buying 1234.56785
units is 1234.56785 itself — rounding to 6 fractional digits does not give
the claimed 1234.5679. -/
theorem c10_rounding_counterexample :
    aggregate [c10buy] = [(cs "C10ROUNDING0", c10pos)]
    ∧ (rowOf c10pos).qty = 123456785 / 100000
    ∧ (rowOf c10pos).qty ≠ 12345679 / 10000 := by
  refine ⟨?_, ?_, ?_⟩
  · norm_num [aggregate, step, updatePos, initPos, List.lookup, c10buy, c10pos]
  · norm_num [rowOf, pyRound, rhe, c10pos]
  · norm_num [rowOf, pyRound, rhe, c10pos]

/-- C10 (amended): each output row reports the net quantity rounded to 6
fractional digits and the average price (cost basis over cumulative buys)
rounded to 2, zero when nothing was bought, under round-half-to-even; in
particular 1234.56785 is unchanged by the 6-digit rounding. -/
theorem c10_rounded_output (ts : List Trade) (r : Row) (h : r ∈ outputRows ts) :
    (∃ p ∈ (heldOf (aggregate ts)).map Prod.snd,
      r.qty = pyRound 6 p.total_qty
      ∧ r.price = if 0 < p.buy_qty then pyRound 2 (p.total_invested / p.buy_qty) else 0)
    ∧ pyRound 6 (123456785 / 100000 : ℚ) = 123456785 / 100000 := by
  constructor
  · simp only [outputRows, sortedHeld, List.mem_map] at h
    obtain ⟨p, hp, rfl⟩ := h
    exact ⟨p, (List.mergeSort_perm _ _).mem_iff.1 hp, rfl, rfl⟩
  · norm_num [pyRound, rhe]

/-- C10 witness: the rounded row of a held buy of 2 units at 50. -/
theorem c10_rounded_output_witness :
    (∃ p ∈ (heldOf (aggregate [c10wbuy])).map Prod.snd,
      (⟨cs "Kappa", cs "C10WITNESS00", 2, 50, cs "EUR"⟩ : Row).qty = pyRound 6 p.total_qty
      ∧ (⟨cs "Kappa", cs "C10WITNESS00", 2, 50, cs "EUR"⟩ : Row).price
        = if 0 < p.buy_qty then pyRound 2 (p.total_invested / p.buy_qty) else 0)
    ∧ pyRound 6 (123456785 / 100000 : ℚ) = 123456785 / 100000 :=
  c10_rounded_output [c10wbuy] ⟨cs "Kappa", cs "C10WITNESS00", 2, 50, cs "EUR"⟩
    (by rw [c10w_rows]; exact List.mem_cons_self _ _)

end AInvest
